import Mathlib

/-!
Verification of the incremental member-processing pipeline in
`src/process.py` (TLR circle community member audit).

The embedding follows the source file closely:

* `Datetime` models Python `datetime.datetime` values (naive wall-clock);
  comparison on Python datetimes is lexicographic on the fields
  (year, month, day, hour, minute, second, microsecond), modelled by
  `Datetime.lt`.
* `Member` models the `Member` dataclass.
* `strptime` / `parse_date` model `FileHandler.parse_date` and the slice
  of CPython `datetime.strptime` behaviour it exercises: each of the four
  format strings is compiled to a directive list, fields are matched with
  the stdlib's digit-count patterns, and calendar validation (as done by
  the `datetime` constructor) makes an attempt fail, which the source's
  `except ValueError: continue` turns into trying the next format.
* `parse_members` models `FileHandler.parse_members`.
* `CacheFile` / `load_last_join_date` / `save_last_join_date` model the
  pickle cache file on disk and `CacheHandler`.
* `resolve_reference`, `filter_members`, `process_run` model the body of
  `MemberProcessor.process` (lines 133-160): reference resolution,
  filtering, and the cache update.  The interactive prompt
  (`get_user_reference_date`) is an external collaborator and enters as an
  oracle parameter giving the value it would return.
* `sortMembers` / `strftime_iso` model `CLI.write_output`'s sort
  (`sorted(..., key=lambda m: m.join_date, reverse=True)`, a stable sort)
  and its `strftime("%Y-%m-%dT%H:%M:%SZ")` serialization.
-/

namespace Process

/-- Python `datetime.datetime` value (naive, no tzinfo), as stored in
`Member.join_date` and in the cache. -/
structure Datetime where
  year : Nat
  month : Nat
  day : Nat
  hour : Nat
  minute : Nat
  second : Nat
  microsecond : Nat
deriving DecidableEq, Repr

/-- Python compares `datetime` values lexicographically on
(year, month, day, hour, minute, second, microsecond). -/
def Datetime.lt (a b : Datetime) : Prop :=
  a.year < b.year ∨ (a.year = b.year ∧
    (a.month < b.month ∨ (a.month = b.month ∧
      (a.day < b.day ∨ (a.day = b.day ∧
        (a.hour < b.hour ∨ (a.hour = b.hour ∧
          (a.minute < b.minute ∨ (a.minute = b.minute ∧
            (a.second < b.second ∨ (a.second = b.second ∧
              a.microsecond < b.microsecond)))))))))))

instance (a b : Datetime) : Decidable (Datetime.lt a b) := by
  unfold Datetime.lt
  exact inferInstance

theorem Datetime.lt_trans {a b c : Datetime}
    (h₁ : Datetime.lt a b) (h₂ : Datetime.lt b c) : Datetime.lt a c := by
  unfold Datetime.lt at *
  omega

theorem Datetime.lt_asymm {a b : Datetime}
    (h : Datetime.lt a b) : ¬ Datetime.lt b a := by
  unfold Datetime.lt at *
  omega

theorem Datetime.lt_irrefl (a : Datetime) : ¬ Datetime.lt a a := by
  unfold Datetime.lt
  omega

theorem Datetime.lt_total (a b : Datetime) :
    Datetime.lt a b ∨ a = b ∨ Datetime.lt b a := by
  by_cases hy : a.year = b.year
  · by_cases hmo : a.month = b.month
    · by_cases hd : a.day = b.day
      · by_cases hh : a.hour = b.hour
        · by_cases hmi : a.minute = b.minute
          · by_cases hs : a.second = b.second
            · by_cases hus : a.microsecond = b.microsecond
              · exact Or.inr (Or.inl (by cases a; cases b; simp_all))
              · unfold Datetime.lt; omega
            · unfold Datetime.lt; omega
          · unfold Datetime.lt; omega
        · unfold Datetime.lt; omega
      · unfold Datetime.lt; omega
    · unfold Datetime.lt; omega
  · unfold Datetime.lt; omega

/-! DateParser: `FileHandler.parse_date`.

`datetime.strptime` is modelled at character level.  A format string is
compiled to a list of directives; numeric fields follow the CPython
`_strptime` patterns: `%Y` is exactly four digits, `%m`/`%d`/`%H`/`%M`/`%S`
are two digits within the field's range or else one digit, `%f` is one to
six digits padded right to microseconds.  After matching, the `datetime`
constructor validates the calendar fields; a failure there raises the same
`ValueError` the source catches, so it is folded into the attempt failing. -/

def digitVal (c : Char) : Nat := c.toNat - 48

/-- Two-digit numeric field in `lo2..hi2`, else one digit in `lo1..hi1`
(the shape of the CPython `_strptime` alternation patterns). -/
def parse2 (lo2 hi2 lo1 hi1 : Nat) : List Char → Option (Nat × List Char)
  | a :: b :: rest =>
    if a.isDigit && b.isDigit &&
        decide (lo2 ≤ 10 * digitVal a + digitVal b) &&
        decide (10 * digitVal a + digitVal b ≤ hi2) then
      some (10 * digitVal a + digitVal b, rest)
    else if a.isDigit && decide (lo1 ≤ digitVal a) && decide (digitVal a ≤ hi1) then
      some (digitVal a, b :: rest)
    else
      none
  | [a] =>
    if a.isDigit && decide (lo1 ≤ digitVal a) && decide (digitVal a ≤ hi1) then
      some (digitVal a, [])
    else
      none
  | [] => none

/-- Directive `%Y`: exactly four digits. -/
def parse4 : List Char → Option (Nat × List Char)
  | a :: b :: c :: d :: rest =>
    if a.isDigit && b.isDigit && c.isDigit && d.isDigit then
      some (1000 * digitVal a + 100 * digitVal b + 10 * digitVal c + digitVal d, rest)
    else
      none
  | _ => none

def takeDigits : Nat → List Char → List Char × List Char
  | 0, cs => ([], cs)
  | _ + 1, [] => ([], [])
  | n + 1, c :: cs =>
    if c.isDigit then
      let (ds, rest) := takeDigits n cs
      (c :: ds, rest)
    else
      ([], c :: cs)

/-- Directive `%f`: one to six digits, padded on the right to microseconds. -/
def parseF (cs : List Char) : Option (Nat × List Char) :=
  let (ds, rest) := takeDigits 6 cs
  if ds.isEmpty then none
  else some ((ds.foldl (fun acc c => 10 * acc + digitVal c) 0) * 10 ^ (6 - ds.length), rest)

/-- One directive of a compiled format string. -/
inductive Dir where
  | lit (c : Char)
  | Y | Mo | D | H | Mi | S | F
deriving DecidableEq, Repr

/-- Fields recovered by `strptime` before `datetime` construction, with the
stdlib defaults (year 1900, month 1, day 1, midnight). -/
structure RawFields where
  year : Nat := 1900
  month : Nat := 1
  day : Nat := 1
  hour : Nat := 0
  minute : Nat := 0
  second : Nat := 0
  microsecond : Nat := 0
deriving DecidableEq, Repr

def matchDirs : List Dir → List Char → RawFields → Option RawFields
  | [], [], r => some r
  | [], _ :: _, _ => none
  | .lit c :: ds, cs, r =>
    match cs with
    | x :: xs => if x = c then matchDirs ds xs r else none
    | [] => none
  | .Y :: ds, cs, r =>
    match parse4 cs with
    | some (n, rest) => matchDirs ds rest { r with year := n }
    | none => none
  | .Mo :: ds, cs, r =>
    match parse2 1 12 1 9 cs with
    | some (n, rest) => matchDirs ds rest { r with month := n }
    | none => none
  | .D :: ds, cs, r =>
    match parse2 1 31 1 9 cs with
    | some (n, rest) => matchDirs ds rest { r with day := n }
    | none => none
  | .H :: ds, cs, r =>
    match parse2 0 23 0 9 cs with
    | some (n, rest) => matchDirs ds rest { r with hour := n }
    | none => none
  | .Mi :: ds, cs, r =>
    match parse2 0 59 0 9 cs with
    | some (n, rest) => matchDirs ds rest { r with minute := n }
    | none => none
  | .S :: ds, cs, r =>
    match parse2 0 61 0 9 cs with
    | some (n, rest) => matchDirs ds rest { r with second := n }
    | none => none
  | .F :: ds, cs, r =>
    match parseF cs with
    | some (n, rest) => matchDirs ds rest { r with microsecond := n }
    | none => none

def isLeap (y : Nat) : Bool := y % 4 == 0 && (y % 100 != 0 || y % 400 == 0)

def daysInMonth (y m : Nat) : Nat :=
  if m = 2 then (if isLeap y then 29 else 28)
  else if m = 4 ∨ m = 6 ∨ m = 9 ∨ m = 11 then 30
  else 31

/-- The `datetime` constructor's validation: field ranges and calendar
consistency.  Seconds 60 and 61 pass the `%S` pattern but fail here, which
the source's `except ValueError` treats like a non-match. -/
def mkDatetime (r : RawFields) : Option Datetime :=
  if 1 ≤ r.year ∧ r.year ≤ 9999 ∧ 1 ≤ r.month ∧ r.month ≤ 12 ∧
      1 ≤ r.day ∧ r.day ≤ daysInMonth r.year r.month ∧
      r.hour ≤ 23 ∧ r.minute ≤ 59 ∧ r.second ≤ 59 ∧ r.microsecond ≤ 999999 then
    some ⟨r.year, r.month, r.day, r.hour, r.minute, r.second, r.microsecond⟩
  else
    none

/-- One attempt of `datetime.strptime(date_str, fmt)`: the whole string
must be consumed, then the fields must form a valid `datetime`. -/
def strptime (fmt : List Dir) (s : String) : Option Datetime :=
  match matchDirs fmt s.toList {} with
  | some r => mkDatetime r
  | none => none

/-- Compiled form of the format string `%Y-%m-%d %H:%M:%S`. -/
def fmt1 : List Dir :=
  [.Y, .lit '-', .Mo, .lit '-', .D, .lit ' ', .H, .lit ':', .Mi, .lit ':', .S]

/-- Compiled form of the format string `%Y-%m-%dT%H:%M:%S.%fZ`. -/
def fmt2 : List Dir :=
  [.Y, .lit '-', .Mo, .lit '-', .D, .lit 'T', .H, .lit ':', .Mi, .lit ':', .S,
   .lit '.', .F, .lit 'Z']

/-- Compiled form of the format string `%Y-%m-%dT%H:%M:%SZ`. -/
def fmt3 : List Dir :=
  [.Y, .lit '-', .Mo, .lit '-', .D, .lit 'T', .H, .lit ':', .Mi, .lit ':', .S,
   .lit 'Z']

/-- Compiled form of the fallback format string `%Y-%m-%d`. -/
def fmt4 : List Dir := [.Y, .lit '-', .Mo, .lit '-', .D]

/-- The `date_formats` list of `FileHandler.parse_date`, in source order. -/
def date_formats : List (List Dir) := [fmt1, fmt2, fmt3, fmt4]

inductive DateError where
  | invalidFormat (s : String)
deriving DecidableEq, Repr

/-- The `for fmt in date_formats: try ... except ValueError: continue`
loop of `FileHandler.parse_date`, ending in the raise that carries the
offending string. -/
def tryFormats (s : String) : List (List Dir) → Except DateError Datetime
  | [] => .error (.invalidFormat s)
  | fmt :: fmts =>
    match strptime fmt s with
    | some d => .ok d
    | none => tryFormats s fmts

/-- Model of `FileHandler.parse_date`. -/
def parse_date (s : String) : Except DateError Datetime :=
  tryFormats s date_formats

/-- The `Member` dataclass of the source. -/
structure Member where
  first_name : String
  last_name : String
  email : String
  join_date : Datetime
  profile_url : String
deriving DecidableEq, Repr

/-! RosterSource: `FileHandler.parse_members`. -/

/-- One `csv.DictReader` row, holding the raw string of each column used
by the source. -/
structure RawRow where
  first_name : String
  last_name : String
  email : String
  join_date : String
  profile_url : String
deriving DecidableEq, Repr

inductive RowError where
  | malformedRow (row : RawRow)
deriving DecidableEq, Repr

/-- Model of `FileHandler.parse_members`: builds the member list row by row; the
first row whose `Join Date` fails `parse_date` aborts the whole import
with the raw row in the error. -/
def parse_members : List RawRow → Except RowError (List Member)
  | [] => .ok []
  | row :: rest =>
    match parse_date row.join_date with
    | .error _ => .error (.malformedRow row)
    | .ok d =>
      match parse_members rest with
      | .error e => .error e
      | .ok ms =>
        .ok ({ first_name := row.first_name.trim
               last_name := row.last_name.trim
               email := row.email.trim
               join_date := d
               profile_url := row.profile_url.trim } :: ms)

/-! Cache: `CacheHandler`. -/

/-- The state of the pickle file `last_join_date.pkl` on disk. -/
inductive CacheFile where
  | absent
  | corrupted
  | stored (d : Datetime)
deriving DecidableEq, Repr

/-- Model of `CacheHandler.load_last_join_date`.  Returns the loaded value together
with whether the corruption warning was printed.  A missing file returns
`none` silently; a corrupted pickle is caught, warned about, and also
returns `none`; a readable pickle returns its datetime. -/
def load_last_join_date : CacheFile → Option Datetime × Bool
  | .absent => (none, false)
  | .corrupted => (none, true)
  | .stored d => (some d, false)

/-- Model of `CacheHandler.save_last_join_date`: unconditionally overwrites the
cache file. -/
def save_last_join_date (join_date : Datetime) (_ : CacheFile) : CacheFile :=
  .stored join_date

/-! Core of `MemberProcessor.process` (lines 133-160). -/

/-- The reference-resolution block of `MemberProcessor.process`: the
provided date if truthy, else the cache value if truthy, else the
interactive prompt (an oracle parameter `interactive` supplies the value
`get_user_reference_date` would return).  The second component records
whether the cache was read. -/
def resolve_reference (provided : Option Datetime) (cache : CacheFile)
    (interactive : Option Datetime) : Option Datetime × Bool :=
  match provided with
  | some r => (some r, false)
  | none =>
    match (load_last_join_date cache).1 with
    | some c => (some c, true)
    | none => (interactive, true)

/-- The filter block of `MemberProcessor.process`: with a truthy reference
date keep the members strictly newer than it, otherwise keep everybody. -/
def filter_members (members : List Member) (reference : Option Datetime) :
    List Member :=
  match reference with
  | some r => members.filter (fun m => decide (Datetime.lt r m.join_date))
  | none => members

/-- One step of Python's `max` scan: keep the current value unless a
strictly larger one appears (first maximum wins on ties, as in CPython). -/
def maxStep (acc : Option Datetime) (x : Datetime) : Option Datetime :=
  match acc with
  | none => some x
  | some a => if Datetime.lt a x then some x else some a

/-- Python's `max` over a list of datetimes, `none` on the empty list. -/
def listMax (l : List Datetime) : Option Datetime :=
  l.foldl maxStep none

/-- The tail of `MemberProcessor.process`: resolve the reference, filter,
and if the filtered list is truthy save its maximum join date to the
cache.  Returns the filtered members and the resulting cache state. -/
def process_run (members : List Member) (provided : Option Datetime)
    (cache : CacheFile) (interactive : Option Datetime) :
    List Member × CacheFile :=
  let reference := (resolve_reference provided cache interactive).1
  let filtered := filter_members members reference
  match listMax (filtered.map (·.join_date)) with
  | some latest => (filtered, save_last_join_date latest cache)
  | none => (filtered, cache)

/-! ReportWriter: `CLI.write_output`. -/

/-- The filtered list a run works with: the roster filtered through the
resolved reference. -/
def run_filtered (M : List Member) (provided : Option Datetime)
    (cache : CacheFile) (interactive : Option Datetime) : List Member :=
  filter_members M (resolve_reference provided cache interactive).1

/-- The descending-by-join-date comparison Python's
`sorted(key=lambda m: m.join_date, reverse=True)` sorts by: `a` may come
before `b` iff `a.join_date ≥ b.join_date`. -/
def memberGE (a b : Member) : Bool :=
  ! decide (Datetime.lt a.join_date b.join_date)

/-- Model of `sorted(members, key=lambda m: m.join_date, reverse=True)`: Python's
sort is stable, and `reverse=True` reverses the comparisons while keeping
ties in input order, i.e. a stable merge sort with `memberGE`. -/
def sortMembers (members : List Member) : List Member :=
  members.mergeSort memberGE

/-- Digit character of a value in `0..9` (the characters `%02d`/`%04d`
emit). -/
def decChar : Nat → Char
  | 0 => '0' | 1 => '1' | 2 => '2' | 3 => '3' | 4 => '4'
  | 5 => '5' | 6 => '6' | 7 => '7' | 8 => '8' | _ => '9'

/-- Zero-padded two-digit rendering (`%02d` for values below 100). -/
def two (n : Nat) : List Char := [decChar (n / 10), decChar (n % 10)]

/-- Zero-padded four-digit rendering (`%04d` for values below 10000). -/
def four (n : Nat) : List Char :=
  [decChar (n / 1000), decChar (n / 100 % 10), decChar (n / 10 % 10), decChar (n % 10)]

/-- The characters of `strftime("%Y-%m-%dT%H:%M:%SZ")`: note the
microsecond field is not emitted. -/
def strftime_chars (d : Datetime) : List Char :=
  four d.year ++ ('-' :: (two d.month ++ ('-' :: (two d.day ++
    ('T' :: (two d.hour ++ (':' :: (two d.minute ++
      (':' :: (two d.second ++ ['Z']))))))))))

/-- Model of `member.join_date.strftime("%Y-%m-%dT%H:%M:%SZ")` as in
`CLI.write_output`. -/
def strftime_iso (d : Datetime) : String :=
  String.mk (strftime_chars d)

/-- Whether a date-parse attempt succeeded. -/
def dateOk (e : Except DateError Datetime) : Bool :=
  match e with
  | .ok _ => true
  | .error _ => false

/-- First present value of a list of optional parse results. -/
def firstSome : List (Option Datetime) → Option Datetime
  | [] => none
  | some x :: _ => some x
  | none :: rest => firstSome rest

/-- The field ranges the `datetime` constructor enforces: every Python
`datetime` value satisfies this. -/
def Datetime.Valid (d : Datetime) : Prop :=
  1 ≤ d.year ∧ d.year ≤ 9999 ∧ 1 ≤ d.month ∧ d.month ≤ 12 ∧
  1 ≤ d.day ∧ d.day ≤ daysInMonth d.year d.month ∧
  d.hour ≤ 23 ∧ d.minute ≤ 59 ∧ d.second ≤ 59 ∧ d.microsecond ≤ 999999

instance (d : Datetime) : Decidable d.Valid := by
  unfold Datetime.Valid
  exact inferInstance

/-! Concrete values used by witnesses and counterexamples. -/

def dt0 : Datetime := ⟨2020, 1, 1, 0, 0, 0, 0⟩

def dt1 : Datetime := ⟨2021, 6, 15, 12, 0, 0, 0⟩

def dt2 : Datetime := ⟨2024, 3, 1, 8, 30, 0, 0⟩

def dtF : Datetime := ⟨2024, 1, 3, 12, 30, 5, 250000⟩

def mA : Member :=
  ⟨"Ada", "Lovelace", "ada@example.com", dt1, "https://example.com/ada"⟩

def rowGood : RawRow :=
  ⟨"Grace", "Hopper", "grace@example.com", "2023-06-01 12:30:05",
   "https://example.com/grace"⟩

def rowBad : RawRow :=
  ⟨"Bad", "Row", "bad@example.com", "not-a-date", "https://example.com/bad"⟩

/-! Supporting lemmas. -/

theorem listMax_go (l : List Datetime) :
    ∀ a : Datetime, ∃ m, l.foldl maxStep (some a) = some m ∧
      (m = a ∨ m ∈ l) ∧ ¬ Datetime.lt m a ∧ ∀ x ∈ l, ¬ Datetime.lt m x := by
  induction l with
  | nil =>
    intro a
    exact ⟨a, rfl, Or.inl rfl, Datetime.lt_irrefl a, by simp⟩
  | cons x xs ih =>
    intro a
    by_cases hax : Datetime.lt a x
    · obtain ⟨m, hm, hmem, hma, hall⟩ := ih x
      refine ⟨m, ?_, ?_, ?_, ?_⟩
      · simpa [maxStep, hax] using hm
      · rcases hmem with h | h
        · exact Or.inr (h ▸ List.mem_cons_self x xs)
        · exact Or.inr (List.mem_cons_of_mem x h)
      · intro hlt
        exact hma (Datetime.lt_trans hlt hax)
      · intro y hy
        rcases List.mem_cons.mp hy with rfl | hy
        · exact hma
        · exact hall y hy
    · obtain ⟨m, hm, hmem, hma, hall⟩ := ih a
      refine ⟨m, ?_, ?_, hma, ?_⟩
      · simpa [maxStep, hax] using hm
      · rcases hmem with h | h
        · exact Or.inl h
        · exact Or.inr (List.mem_cons_of_mem x h)
      · intro y hy
        rcases List.mem_cons.mp hy with rfl | hy
        · intro hmy
          rcases Datetime.lt_total a y with h | h | h
          · exact hax h
          · exact hma (h ▸ hmy)
          · exact hma (Datetime.lt_trans hmy h)
        · exact hall y hy

theorem listMax_eq_some {l : List Datetime} {m : Datetime}
    (h : listMax l = some m) : m ∈ l ∧ ∀ x ∈ l, ¬ Datetime.lt m x := by
  cases l with
  | nil => simp [listMax] at h
  | cons x xs =>
    obtain ⟨m', hm', hmem, hma, hall⟩ := listMax_go xs x
    have hfold : listMax (x :: xs) = xs.foldl maxStep (some x) := rfl
    rw [hfold, hm'] at h
    cases Option.some.inj h
    refine ⟨?_, ?_⟩
    · rcases hmem with rfl | hmem
      · exact List.mem_cons_self _ _
      · exact List.mem_cons_of_mem _ hmem
    · intro y hy
      rcases List.mem_cons.mp hy with rfl | hy
      · exact hma
      · exact hall y hy

theorem listMax_eq_none {l : List Datetime} (h : l ≠ []) :
    ∃ m, listMax l = some m := by
  cases l with
  | nil => exact absurd rfl h
  | cons x xs =>
    obtain ⟨m, hm, _, _, _⟩ := listMax_go xs x
    exact ⟨m, hm⟩

/-- The filtered list returned by `process` is the same in both cache
branches. -/
theorem process_run_fst (M : List Member) (provided : Option Datetime)
    (cache : CacheFile) (interactive : Option Datetime) :
    (process_run M provided cache interactive).1 =
      filter_members M (resolve_reference provided cache interactive).1 := by
  unfold process_run
  cases h : listMax ((filter_members M
      (resolve_reference provided cache interactive).1).map (·.join_date)) <;>
    simp [h]

/-- Whenever `listMax` of the filtered join dates is `mx`, no member of
the whole roster is strictly newer than `mx`. -/
theorem listMax_filtered_dominates (M : List Member) (ref : Option Datetime)
    {mx : Datetime}
    (hmx : listMax ((filter_members M ref).map (·.join_date)) = some mx) :
    ∀ m ∈ M, ¬ Datetime.lt mx m.join_date := by
  obtain ⟨hmem, hall⟩ := listMax_eq_some hmx
  intro m hm
  cases ref with
  | none =>
    exact hall m.join_date (List.mem_map_of_mem _ hm)
  | some r =>
    by_cases hr : Datetime.lt r m.join_date
    · apply hall m.join_date
      apply List.mem_map_of_mem
      simp [filter_members, List.mem_filter, hm, hr]
    · obtain ⟨m₀, hm₀, hjd⟩ := List.mem_map.mp hmem
      have hrm₀ : Datetime.lt r m₀.join_date := by
        simp [filter_members, List.mem_filter] at hm₀
        exact hm₀.2
      intro hlt
      exact hr (Datetime.lt_trans (hjd ▸ hrm₀) hlt)

/-! The claims. -/

/-- Claim C1: with a reference timestamp present, the filter keeps exactly
the members whose `join_date` is strictly greater than the reference
(equality excluded), preserving input order; with the reference absent,
the list is returned unchanged. -/
theorem filter_members_spec (M : List Member) (r : Datetime) :
    (∀ m : Member, m ∈ filter_members M (some r) ↔
      m ∈ M ∧ Datetime.lt r m.join_date) ∧
    (filter_members M (some r)).Sublist M ∧
    filter_members M none = M := by
  refine ⟨fun m => ?_, ?_, rfl⟩
  · simp [filter_members, List.mem_filter]
  · exact List.filter_sublist M

/-- Claim C4: reference resolution has strict three-level precedence: a
provided timestamp is used as-is and the cache is not read (flag
`false`); otherwise the cache value is used when the load yields one;
otherwise the interactive fallback's answer is used.  The provided value
and the cache value are never combined. -/
theorem resolve_reference_spec (cache : CacheFile)
    (interactive : Option Datetime) :
    (∀ r : Datetime,
      resolve_reference (some r) cache interactive = (some r, false)) ∧
    (∀ v : Datetime, (load_last_join_date cache).1 = some v →
      resolve_reference none cache interactive = (some v, true)) ∧
    ((load_last_join_date cache).1 = none →
      resolve_reference none cache interactive = (interactive, true)) := by
  refine ⟨fun r => rfl, fun v hv => ?_, fun hn => ?_⟩
  · simp [resolve_reference, hv]
  · simp [resolve_reference, hn]

theorem resolve_reference_spec_witness :
    resolve_reference (some dt0) .corrupted (some dt1) = (some dt0, false) ∧
    resolve_reference none (.stored dt2) (some dt1) = (some dt2, true) ∧
    resolve_reference none .absent (some dt1) = (some dt1, true) :=
  ⟨(resolve_reference_spec .corrupted (some dt1)).1 dt0,
   (resolve_reference_spec (.stored dt2) (some dt1)).2.1 dt2 rfl,
   (resolve_reference_spec .absent (some dt1)).2.2 rfl⟩

/-- Claim C2, counterexample: with the cache holding 2024-03-01 and an
explicit reference of 2020-01-01, a roster whose only member joined
2021-06-15 gives a non-empty filtered list and the run overwrites the
cache with 2021-06-15, which is strictly earlier than the previous cache
value — the persisted timestamp moves backward, refuting the claim for
runs with an explicit reference timestamp. -/
theorem cache_monotone_counterexample :
    (process_run [mA] (some dt0) (.stored dt2) none).2 = .stored dt1 ∧
    Datetime.lt dt1 dt2 := by
  exact ⟨rfl, by decide⟩

/-- Claim C2, amended: on runs without an explicit reference timestamp,
the persisted cache value is monotone — it stays unchanged or is
overwritten with a strictly greater value; it never moves backward. -/
theorem cache_monotone_no_explicit (M : List Member)
    (interactive : Option Datetime) (c : Datetime) :
    (process_run M none (.stored c) interactive).2 = .stored c ∨
    ∃ c', (process_run M none (.stored c) interactive).2 = .stored c' ∧
      Datetime.lt c c' := by
  cases h : listMax ((filter_members M
      (resolve_reference none (.stored c) interactive).1).map (·.join_date)) with
  | none =>
    left
    simp [process_run, h]
  | some mx =>
    right
    refine ⟨mx, by simp [process_run, h, save_last_join_date], ?_⟩
    obtain ⟨hmem, -⟩ := listMax_eq_some h
    obtain ⟨m₀, hm₀, hjd⟩ := List.mem_map.mp hmem
    have hres : (resolve_reference none (.stored c) interactive).1 = some c := rfl
    rw [hres] at hm₀
    have hcm₀ : Datetime.lt c m₀.join_date := by
      simp [filter_members, List.mem_filter] at hm₀
      exact hm₀.2
    exact hjd ▸ hcm₀

/-- Claim C3: if the filtered list is non-empty the run writes to the cache
exactly the maximum `join_date` over the filtered list (an element of it
that no filtered join date exceeds); if the filtered list is empty, the
cache is returned untouched and no high-water mark exists. -/
theorem high_water_spec (M : List Member) (provided : Option Datetime)
    (cache : CacheFile) (interactive : Option Datetime) :
    (run_filtered M provided cache interactive ≠ [] →
      ∃ mx, listMax ((run_filtered M provided cache interactive).map
          (·.join_date)) = some mx ∧
        mx ∈ (run_filtered M provided cache interactive).map (·.join_date) ∧
        (∀ x ∈ (run_filtered M provided cache interactive).map (·.join_date),
          ¬ Datetime.lt mx x) ∧
        process_run M provided cache interactive =
          (run_filtered M provided cache interactive, .stored mx)) ∧
    (run_filtered M provided cache interactive = [] →
      process_run M provided cache interactive =
        (run_filtered M provided cache interactive, cache)) := by
  constructor
  · intro hne
    have hmapne : (run_filtered M provided cache interactive).map
        (·.join_date) ≠ [] := by
      simpa using hne
    obtain ⟨mx, hmx⟩ := listMax_eq_none hmapne
    obtain ⟨hmem, hall⟩ := listMax_eq_some hmx
    refine ⟨mx, hmx, hmem, hall, ?_⟩
    rw [run_filtered] at hmx
    simp [process_run, hmx, save_last_join_date, run_filtered]
  · intro he
    have hmx : listMax ((filter_members M
        (resolve_reference provided cache interactive).1).map (·.join_date)) =
        none := by
      rw [← run_filtered, he]
      rfl
    simp [process_run, hmx, run_filtered]

theorem high_water_spec_witness :
    process_run [mA] none .absent none = ([mA], CacheFile.stored dt1) ∧
    process_run [mA] (some dt2) .absent none = ([], CacheFile.absent) := by
  constructor
  · obtain ⟨mx, hmx, -, -, heq⟩ :=
      (high_water_spec [mA] none .absent none).1 (by decide)
    have h2 : listMax ((run_filtered [mA] none .absent none).map
        (·.join_date)) = some dt1 := by decide
    rw [Option.some.inj (hmx.symm.trans h2)] at heq
    exact heq
  · exact (high_water_spec [mA] (some dt2) .absent none).2 (by decide)

/-- Claim C5: running the pipeline twice on the same roster with no explicit
reference, when the first run's filtered list is non-empty, leaves the
cache at the maximum observed join date, so the second run filters
everything out. -/
theorem rerun_empty (M : List Member) (cache : CacheFile)
    (i1 i2 : Option Datetime)
    (h : (process_run M none cache i1).1 ≠ []) :
    (process_run M none ((process_run M none cache i1).2) i2).1 = [] := by
  rw [process_run_fst] at h
  have hmapne : (filter_members M (resolve_reference none cache i1).1).map
      (·.join_date) ≠ [] := by
    simpa using h
  obtain ⟨mx, hmx⟩ := listMax_eq_none hmapne
  have hdom := listMax_filtered_dominates M (resolve_reference none cache i1).1 hmx
  have hcache2 : (process_run M none cache i1).2 = .stored mx := by
    simp [process_run, hmx, save_last_join_date]
  rw [hcache2, process_run_fst]
  have hres : (resolve_reference none (.stored mx) i2).1 = some mx := rfl
  rw [hres]
  simp only [filter_members, List.filter_eq_nil_iff, decide_eq_true_eq]
  exact hdom

theorem rerun_empty_witness :
    (process_run [mA] none ((process_run [mA] none .absent none).2) none).1
      = [] :=
  rerun_empty [mA] .absent none none (by decide)

/-- Claim C6: `parse_date` tries the four formats in their fixed priority
order and returns the result of the first one that matches; when none
matches it fails with `invalidFormat` carrying the offending string. -/
theorem parse_date_first_match (s : String) :
    parse_date s =
      match firstSome [strptime fmt1 s, strptime fmt2 s,
          strptime fmt3 s, strptime fmt4 s] with
      | some d => .ok d
      | none => .error (.invalidFormat s) := by
  cases h1 : strptime fmt1 s <;> cases h2 : strptime fmt2 s <;>
    cases h3 : strptime fmt3 s <;> cases h4 : strptime fmt4 s <;>
    simp [parse_date, date_formats, tryFormats, firstSome, h1, h2, h3, h4]

/-- Claim C7: a cache artifact that exists but fails to unpickle does not
fail the run: the load emits the warning and returns `none`, and the run
produces the same filtered output as a run with no cache file at all. -/
theorem cache_corrupted_recovery (M : List Member)
    (provided interactive : Option Datetime) :
    load_last_join_date .corrupted = (none, true) ∧
    (load_last_join_date .corrupted).1 = (load_last_join_date .absent).1 ∧
    (process_run M provided .corrupted interactive).1 =
      (process_run M provided .absent interactive).1 := by
  refine ⟨rfl, rfl, ?_⟩
  rw [process_run_fst, process_run_fst]
  have hres : (resolve_reference provided .corrupted interactive).1 =
      (resolve_reference provided .absent interactive).1 := by
    cases provided <;> rfl
  rw [hres]

/-- Claim C8: if any row's join-date column fails to parse, `parse_members`
returns an error carrying the raw contents of the first such row (rows
before it having parsed fine), and no member list — partial or otherwise
— is produced. -/
theorem parse_members_abort (rows : List RawRow)
    (h : ∃ r ∈ rows, dateOk (parse_date r.join_date) = false) :
    ∃ pre r post, rows = pre ++ r :: post ∧
      (∀ r' ∈ pre, dateOk (parse_date r'.join_date) = true) ∧
      dateOk (parse_date r.join_date) = false ∧
      parse_members rows = .error (.malformedRow r) := by
  induction rows with
  | nil => simp at h
  | cons row rest ih =>
    cases hp : parse_date row.join_date with
    | error e =>
      refine ⟨[], row, rest, rfl, by simp, by simp [dateOk, hp], ?_⟩
      simp [parse_members, hp]
    | ok d =>
      have hbad : ∃ r ∈ rest, dateOk (parse_date r.join_date) = false := by
        obtain ⟨r, hr, hrf⟩ := h
        rcases List.mem_cons.mp hr with rfl | hr
        · rw [hp] at hrf
          simp [dateOk] at hrf
        · exact ⟨r, hr, hrf⟩
      obtain ⟨pre, r, post, heq, hpre, hbadr, herr⟩ := ih hbad
      refine ⟨row :: pre, r, post, by rw [heq]; rfl, ?_, hbadr, ?_⟩
      · intro r' hr'
        rcases List.mem_cons.mp hr' with rfl | hr'
        · simp [dateOk, hp]
        · exact hpre r' hr'
      · simp [parse_members, hp, herr]

theorem parse_members_abort_witness :
    ∃ pre r post, [rowGood, rowBad] = pre ++ r :: post ∧
      (∀ r' ∈ pre, dateOk (parse_date r'.join_date) = true) ∧
      dateOk (parse_date r.join_date) = false ∧
      parse_members [rowGood, rowBad] = .error (.malformedRow r) :=
  parse_members_abort [rowGood, rowBad]
    ⟨rowBad, List.mem_cons_of_mem _ (List.mem_cons_self _ _), by rfl⟩

theorem memberGE_trans (a b c : Member) (hab : memberGE a b)
    (hbc : memberGE b c) : memberGE a c := by
  simp only [memberGE, Bool.not_eq_true', decide_eq_false_iff_not] at *
  intro hac
  rcases Datetime.lt_total b.join_date c.join_date with h | h | h
  · exact hbc h
  · exact hab (h ▸ hac)
  · exact hab (Datetime.lt_trans hac h)

theorem memberGE_total (a b : Member) : memberGE a b || memberGE b a := by
  by_cases h : Datetime.lt a.join_date b.join_date
  · simp [memberGE, h, Datetime.lt_asymm h]
  · simp [memberGE, h]

/-- Claim C9: the report writer's sort is a permutation of the input,
descending in `join_date`, and stable: for every join date `k`, the
members carrying `k` appear in the output in exactly their input order.
The output is thus a deterministic function of the input list. -/
theorem write_output_sorted (M : List Member) :
    (sortMembers M).Perm M ∧
    (sortMembers M).Pairwise
      (fun a b => ¬ Datetime.lt a.join_date b.join_date) ∧
    ∀ k : Datetime,
      (sortMembers M).filter (fun m => decide (m.join_date = k)) =
        M.filter (fun m => decide (m.join_date = k)) := by
  refine ⟨List.mergeSort_perm M memberGE, ?_, ?_⟩
  · have hs := List.sorted_mergeSort memberGE_trans memberGE_total M
    exact hs.imp (fun h => by simpa [memberGE] using h)
  · intro k
    set p : Member → Bool := fun m => decide (m.join_date = k) with hp
    have hpair : (M.filter p).Pairwise (fun a b => memberGE a b = true) := by
      apply List.pairwise_of_forall_mem_list
      intro a ha b hb
      have ha' := (List.mem_filter.mp ha).2
      have hb' := (List.mem_filter.mp hb).2
      rw [hp] at ha' hb'
      simp only [decide_eq_true_eq] at ha' hb'
      simp [memberGE, ha', hb', Datetime.lt_irrefl]
    have hsub2 : List.Sublist (M.filter p) (M.mergeSort memberGE) :=
      List.sublist_mergeSort memberGE_trans memberGE_total hpair
        (List.filter_sublist M)
    have hsub3 : List.Sublist ((M.filter p).filter p)
        ((sortMembers M).filter p) :=
      hsub2.filter p
    have hfp : (M.filter p).filter p = M.filter p :=
      List.filter_eq_self.mpr (fun a ha => (List.mem_filter.mp ha).2)
    rw [hfp] at hsub3
    have hperm : ((sortMembers M).filter p).Perm (M.filter p) :=
      (List.mergeSort_perm M memberGE).filter p
    exact (hsub3.eq_of_length hperm.length_eq.symm).symm

theorem isDigit_decChar (j : Nat) (h : j ≤ 9) : (decChar j).isDigit = true := by
  interval_cases j <;> decide

theorem digitVal_decChar (j : Nat) (h : j ≤ 9) : digitVal (decChar j) = j := by
  interval_cases j <;> decide

theorem parse2_two (lo2 hi2 lo1 hi1 n : Nat) (rest : List Char)
    (h1 : lo2 ≤ n) (h2 : n ≤ hi2) (h3 : n ≤ 99) :
    parse2 lo2 hi2 lo1 hi1 (two n ++ rest) = some (n, rest) := by
  have hd1 : n / 10 ≤ 9 := by omega
  have hd2 : n % 10 ≤ 9 := by omega
  simp only [two, List.cons_append, List.nil_append, parse2,
    isDigit_decChar _ hd1, isDigit_decChar _ hd2,
    digitVal_decChar _ hd1, digitVal_decChar _ hd2]
  have e : 10 * (n / 10) + n % 10 = n := by omega
  rw [e]
  simp [h1, h2]

theorem parse4_four (n : Nat) (rest : List Char) (h : n ≤ 9999) :
    parse4 (four n ++ rest) = some (n, rest) := by
  have h1 : n / 1000 ≤ 9 := by omega
  have h2 : n / 100 % 10 ≤ 9 := by omega
  have h3 : n / 10 % 10 ≤ 9 := by omega
  have h4 : n % 10 ≤ 9 := by omega
  simp only [four, List.cons_append, List.nil_append, parse4,
    isDigit_decChar _ h1, isDigit_decChar _ h2, isDigit_decChar _ h3,
    isDigit_decChar _ h4, digitVal_decChar _ h1, digitVal_decChar _ h2,
    digitVal_decChar _ h3, digitVal_decChar _ h4]
  have e : 1000 * (n / 1000) + 100 * (n / 100 % 10) + 10 * (n / 10 % 10) +
      n % 10 = n := by omega
  simp [e]

theorem matchDirs_lit_eq (c : Char) (ds : List Dir) (xs : List Char)
    (r : RawFields) :
    matchDirs (.lit c :: ds) (c :: xs) r = matchDirs ds xs r := by
  simp [matchDirs]

theorem matchDirs_lit_ne {x c : Char} (h : ¬ x = c) (ds : List Dir)
    (xs : List Char) (r : RawFields) :
    matchDirs (.lit c :: ds) (x :: xs) r = none := by
  simp [matchDirs, h]

theorem matchDirs_Y {cs rest : List Char} {n : Nat}
    (h : parse4 cs = some (n, rest)) (ds : List Dir) (r : RawFields) :
    matchDirs (.Y :: ds) cs r = matchDirs ds rest { r with year := n } := by
  simp [matchDirs, h]

theorem matchDirs_Mo {cs rest : List Char} {n : Nat}
    (h : parse2 1 12 1 9 cs = some (n, rest)) (ds : List Dir)
    (r : RawFields) :
    matchDirs (.Mo :: ds) cs r = matchDirs ds rest { r with month := n } := by
  simp [matchDirs, h]

theorem matchDirs_D {cs rest : List Char} {n : Nat}
    (h : parse2 1 31 1 9 cs = some (n, rest)) (ds : List Dir)
    (r : RawFields) :
    matchDirs (.D :: ds) cs r = matchDirs ds rest { r with day := n } := by
  simp [matchDirs, h]

theorem matchDirs_H {cs rest : List Char} {n : Nat}
    (h : parse2 0 23 0 9 cs = some (n, rest)) (ds : List Dir)
    (r : RawFields) :
    matchDirs (.H :: ds) cs r = matchDirs ds rest { r with hour := n } := by
  simp [matchDirs, h]

theorem matchDirs_Mi {cs rest : List Char} {n : Nat}
    (h : parse2 0 59 0 9 cs = some (n, rest)) (ds : List Dir)
    (r : RawFields) :
    matchDirs (.Mi :: ds) cs r = matchDirs ds rest { r with minute := n } := by
  simp [matchDirs, h]

theorem matchDirs_S {cs rest : List Char} {n : Nat}
    (h : parse2 0 61 0 9 cs = some (n, rest)) (ds : List Dir)
    (r : RawFields) :
    matchDirs (.S :: ds) cs r = matchDirs ds rest { r with second := n } := by
  simp [matchDirs, h]

/-- A valid day number never exceeds 31, whatever the month length. -/
theorem day_le_31 {y m d : Nat} (h : d ≤ daysInMonth y m) : d ≤ 31 := by
  unfold daysInMonth at h
  split_ifs at h <;> omega

/-- Parsing the canonical output format with the matching format string
recovers the datetime with the microsecond field zeroed (it was never
printed). -/
theorem strptime_fmt3_strftime (d : Datetime) (h : d.Valid) :
    strptime fmt3 (strftime_iso d) = some { d with microsecond := 0 } := by
  obtain ⟨y, mo, dy, hr, mi, sec, us⟩ := d
  obtain ⟨hy1, hy2, hm1, hm2, hd1, hd2, hh, hmi, hs, hus⟩ := h
  dsimp only at *
  have hdle : dy ≤ 31 := day_le_31 hd2
  show strptime fmt3 (String.mk (strftime_chars ⟨y, mo, dy, hr, mi, sec, us⟩))
      = _
  unfold strptime
  have htl : (String.mk (strftime_chars ⟨y, mo, dy, hr, mi, sec, us⟩)).toList
      = strftime_chars ⟨y, mo, dy, hr, mi, sec, us⟩ := rfl
  rw [htl]
  unfold strftime_chars fmt3
  dsimp only
  rw [matchDirs_Y (parse4_four y _ hy2)]
  rw [matchDirs_lit_eq]
  rw [matchDirs_Mo (parse2_two 1 12 1 9 mo _ hm1 hm2 (by omega))]
  rw [matchDirs_lit_eq]
  rw [matchDirs_D (parse2_two 1 31 1 9 dy _ hd1 hdle (by omega))]
  rw [matchDirs_lit_eq]
  rw [matchDirs_H (parse2_two 0 23 0 9 hr _ (by omega) hh (by omega))]
  rw [matchDirs_lit_eq]
  rw [matchDirs_Mi (parse2_two 0 59 0 9 mi _ (by omega) hmi (by omega))]
  rw [matchDirs_lit_eq]
  rw [matchDirs_S (parse2_two 0 61 0 9 sec _ (by omega) (by omega) (by omega))]
  rw [matchDirs_lit_eq]
  show mkDatetime ⟨y, mo, dy, hr, mi, sec, 0⟩ = _
  unfold mkDatetime
  rw [if_pos (by exact ⟨hy1, hy2, hm1, hm2, hd1, hd2, hh, hmi, hs,
    Nat.zero_le 999999⟩)]

/-- The first format (`%Y-%m-%d %H:%M:%S`) never matches the canonical
output: it expects a space where the output has a `T`. -/
theorem strptime_fmt1_strftime (d : Datetime) (h : d.Valid) :
    strptime fmt1 (strftime_iso d) = none := by
  obtain ⟨y, mo, dy, hr, mi, sec, us⟩ := d
  obtain ⟨hy1, hy2, hm1, hm2, hd1, hd2, hh, hmi, hs, hus⟩ := h
  dsimp only at *
  have hdle : dy ≤ 31 := day_le_31 hd2
  unfold strptime
  have htl : (strftime_iso ⟨y, mo, dy, hr, mi, sec, us⟩).toList
      = strftime_chars ⟨y, mo, dy, hr, mi, sec, us⟩ := rfl
  rw [htl]
  unfold strftime_chars fmt1
  dsimp only
  rw [matchDirs_Y (parse4_four y _ hy2)]
  rw [matchDirs_lit_eq]
  rw [matchDirs_Mo (parse2_two 1 12 1 9 mo _ hm1 hm2 (by omega))]
  rw [matchDirs_lit_eq]
  rw [matchDirs_D (parse2_two 1 31 1 9 dy _ hd1 hdle (by omega))]
  rw [matchDirs_lit_ne (by decide : ¬ 'T' = ' ')]

/-- The second format (`%Y-%m-%dT%H:%M:%S.%fZ`) never matches the
canonical output: it expects a dot after the seconds where the output has
the final `Z`. -/
theorem strptime_fmt2_strftime (d : Datetime) (h : d.Valid) :
    strptime fmt2 (strftime_iso d) = none := by
  obtain ⟨y, mo, dy, hr, mi, sec, us⟩ := d
  obtain ⟨hy1, hy2, hm1, hm2, hd1, hd2, hh, hmi, hs, hus⟩ := h
  dsimp only at *
  have hdle : dy ≤ 31 := day_le_31 hd2
  unfold strptime
  have htl : (strftime_iso ⟨y, mo, dy, hr, mi, sec, us⟩).toList
      = strftime_chars ⟨y, mo, dy, hr, mi, sec, us⟩ := rfl
  rw [htl]
  unfold strftime_chars fmt2
  dsimp only
  rw [matchDirs_Y (parse4_four y _ hy2)]
  rw [matchDirs_lit_eq]
  rw [matchDirs_Mo (parse2_two 1 12 1 9 mo _ hm1 hm2 (by omega))]
  rw [matchDirs_lit_eq]
  rw [matchDirs_D (parse2_two 1 31 1 9 dy _ hd1 hdle (by omega))]
  rw [matchDirs_lit_eq]
  rw [matchDirs_H (parse2_two 0 23 0 9 hr _ (by omega) hh (by omega))]
  rw [matchDirs_lit_eq]
  rw [matchDirs_Mi (parse2_two 0 59 0 9 mi _ (by omega) hmi (by omega))]
  rw [matchDirs_lit_eq]
  rw [matchDirs_S (parse2_two 0 61 0 9 sec _ (by omega) (by omega) (by omega))]
  rw [matchDirs_lit_ne (by decide : ¬ 'Z' = '.')]

/-- Claim C10: serializing a member's join date and re-parsing it yields the
join date with the microseconds discarded; the write-then-reparse round
trip is the identity exactly when the microsecond field is zero; and two
datetimes differing only in microseconds serialize identically. -/
theorem roundtrip_drops_microseconds (d : Datetime) (h : d.Valid) :
    parse_date (strftime_iso d) = .ok { d with microsecond := 0 } ∧
    (parse_date (strftime_iso d) = .ok d ↔ d.microsecond = 0) ∧
    ∀ d' : Datetime, d.year = d'.year → d.month = d'.month →
      d.day = d'.day → d.hour = d'.hour → d.minute = d'.minute →
      d.second = d'.second → strftime_iso d = strftime_iso d' := by
  have h1 := strptime_fmt1_strftime d h
  have h2 := strptime_fmt2_strftime d h
  have h3 := strptime_fmt3_strftime d h
  have hmain : parse_date (strftime_iso d) = .ok { d with microsecond := 0 } := by
    simp [parse_date, date_formats, tryFormats, h1, h2, h3]
  refine ⟨hmain, ?_, ?_⟩
  · rw [hmain]
    constructor
    · intro he
      have hinj := Except.ok.inj he
      have := congrArg Datetime.microsecond hinj
      simpa using this.symm
    · intro hus
      have : { d with microsecond := 0 } = d := by
        cases d
        simp_all
      rw [this]
  · intro d' hy hmo hd hh hmi hs
    unfold strftime_iso strftime_chars
    rw [hy, hmo, hd, hh, hmi, hs]

theorem roundtrip_drops_microseconds_witness :
    parse_date (strftime_iso dtF) = .ok { dtF with microsecond := 0 } ∧
    ¬ parse_date (strftime_iso dtF) = .ok dtF ∧
    strftime_iso dtF = strftime_iso { dtF with microsecond := 0 } := by
  have h := roundtrip_drops_microseconds dtF (by decide)
  refine ⟨h.1, ?_, ?_⟩
  · intro hc
    have := h.2.1.mp hc
    revert this
    decide
  · exact h.2.2 { dtF with microsecond := 0 } rfl rfl rfl rfl rfl rfl

end Process
